import Mathlib

/-!
# The `iMSCP::H2ph` generators

Two C programs, `engine/PerlLib/h2ph/H2ph.c` and `src/backend/h2ph/H2ph.c`, print a Perl
module whose `%sizeof` hash maps the spelling of a C scalar type to `sizeof` of that type.
Each `main` is a straight line of `printf` calls, some with one `sizeof(T)` argument, with
one region guarded by the preprocessor symbol `DEBUG`.

The embedding keeps every format string of the C source as written (C escapes become the
same Lean escapes; braces are spelled `\x7b` and `\x7d`) and keeps the operand of every
`sizeof` as the list of its type specifiers in source order.  The platform is a parameter:
a function giving the byte size of every scalar type.
-/

namespace H2ph

/-! ## C types -/

/-- The type specifiers occurring in the operands of `sizeof`; `size_t` is the typedef name. -/
inductive Spec
  | char | short | int | long | signed | unsigned | float | double | size_t
  deriving DecidableEq, Repr

/-- The scalar types the specifier lists denote. -/
inductive CType
  | char | schar | uchar | short | ushort | int | uint | long | ulong | llong | ullong
  | float | double | ldouble | size_t
  deriving DecidableEq, Repr

/-- The type a multiset of specifiers denotes (ISO C 6.7.2p2): the order of the specifiers is
irrelevant, `int` may be left out next to `short`, `long`, `signed` or `unsigned`, and `signed`
is implied for every integer type but `char`.  Any other combination is not a type. -/
def resolve (l : List Spec) : Option CType :=
  let c := l.count .char
  let sh := l.count .short
  let i := l.count .int
  let lg := l.count .long
  let sg := l.count .signed
  let u := l.count .unsigned
  let f := l.count .float
  let d := l.count .double
  let st := l.count .size_t
  if 1 < sg + u then none
  else if st = 1 ∧ l.length = 1 then some .size_t
  else if f = 1 ∧ l.length = 1 then some .float
  else if d = 1 ∧ l.length = 1 then some .double
  else if d = 1 ∧ lg = 1 ∧ l.length = 2 then some .ldouble
  else if 0 < f + d + st then none
  else if c = 1 ∧ sh + i + lg = 0 then
    (if u = 1 then some .uchar else if sg = 1 then some .schar else some .char)
  else if 0 < c then none
  else if 1 < i then none
  else if sh = 1 ∧ lg = 0 then (if u = 1 then some .ushort else some .short)
  else if 0 < sh then none
  else if lg = 1 then (if u = 1 then some .ulong else some .long)
  else if lg = 2 then (if u = 1 then some .ullong else some .llong)
  else if 0 < lg then none
  else if 0 < i + sg + u then (if u = 1 then some .uint else some .int)
  else none

/-! ## Statements of `main` -/

/-- An argument of `printf`: the only ones in the two programs are `sizeof(T)`. -/
inductive Arg
  | sizeof (T : List Spec)
  deriving DecidableEq, Repr

/-- A statement of `main`: a call of `printf` with its format string and arguments. -/
inductive Stmt
  | printf (fmt : String) (args : List Arg)
  deriving DecidableEq, Repr

/-- The state of the preprocessor symbol `DEBUG`: not defined, or defined with a value. -/
abbrev DebugMacro := Option Int

/-- The test `#if DEBUG`: the symbol is defined and its value is not zero. -/
def ppIf (DEBUG : DebugMacro) : Bool :=
  match DEBUG with
  | none => false
  | some v => v != 0

/-- The test `#ifdef DEBUG`: the symbol is defined. -/
def ppIfdef (DEBUG : DebugMacro) : Bool :=
  DEBUG.isSome

namespace Engine

/-- Lines 24 to 51 of `engine/PerlLib/h2ph/H2ph.c`: the calls before `#if DEBUG`. -/
def prologue : List Stmt :=
  [ .printf "# i-MSCP - internet Multi Server Control Panel\n" [],
    .printf "# Copyright (C) 2010-2018 Laurent Declercq <l.declercq@nuxwin.com>\n" [],
    .printf "# \n" [],
    .printf "# This library is free software; you can redistribute it and/or\n" [],
    .printf "# modify it under the terms of the GNU Lesser General Public\n" [],
    .printf "# License as published by the Free Software Foundation; either\n" [],
    .printf "# version 2.1 of the License, or (at your option) any later version.\n" [],
    .printf "# \n" [],
    .printf "# This library is distributed in the hope that it will be useful,\n" [],
    .printf "# but WITHOUT ANY WARRANTY; without even the implied warranty of\n" [],
    .printf "# MERCHANTABILITY or FITNESS FOR A PARTICULAR PURPOSE. See the GNU\n" [],
    .printf "# Lesser General Public License for more details.\n" [],
    .printf "# \n" [],
    .printf "# You should have received a copy of the GNU Lesser General Public\n" [],
    .printf "# License along with this library; if not, write to the Free Software\n" [],
    .printf "# Foundation, Inc., 51 Franklin St, Fifth Floor, Boston, MA 02110-1301 USA\n\n" [],
    .printf "package iMSCP::H2ph;\n\n" [],
    .printf "use File::Basename;\n\n" [],
    .printf "BEGIN \x7b\n" [],
    .printf "    # We do not want keep track of the following\n" [],
    .printf "    local %%INC;\n" [],
    .printf "    local @INC = @INC;\n" [],
    .printf "    push @INC, \"@\x7b[ dirname __FILE__]\x7d/../h2ph/inc\";\n" [],
    .printf "    no warnings 'portable';\n" [],
    .printf "    require 'sys/syscall.ph';\n" [],
    .printf "    require 'linux/fs.ph';\n" [],
    .printf "\x7d\n\n" [],
    .printf "our %%sizeof;\n\n" [] ]

/-- Lines 55 to 65: the calls between `#if DEBUG` and `#endif`. -/
def debugRegion : List Stmt :=
  [ .printf "\x7b\n" [],
    .printf "    package iMSCP::H2ph::HASH;\n" [],
    .printf "    require Tie::Hash;\n" [],
    .printf "    our @ISA = qw/ Tie::StdHash /;\n\n" [],
    .printf "    sub FETCH \x7b\n" [],
    .printf "        my $context = sprintf qq[in %%s file %%s at line %%s.], caller;\n" [],
    .printf "        warn qq[No sizeof for C type '$_[1]' $context\\n] unless exists $_[0]\x7b$_[1]\x7d;\n" [],
    .printf "        return $_[0]\x7b$_[1]\x7d;\n" [],
    .printf "    \x7d\n" [],
    .printf "\x7d\n\n" [],
    .printf "tie %%sizeof, 'iMSCP::H2ph::HASH';\n\n" [] ]

/-- Lines 75 to 113: the calls after `#endif`.  The six `long long` calls of lines 100 to 105
are inside a comment in the source and so are no statements. -/
def table : List Stmt :=
  [ .printf "# See https://bugs.debian.org/cgi-bin/bugreport.cgi?bug=190887\n" [],
    .printf "%%sizeof = (\n" [],
    .printf "    char                     => 0x%lx,\n" [.sizeof [.char]],
    .printf "    'signed char'            => 0x%lx,\n" [.sizeof [.signed, .char]],
    .printf "    'unsigned char'          => 0x%lx,\n" [.sizeof [.unsigned, .char]],
    .printf "     short                   => 0x%lx,\n" [.sizeof [.short]],
    .printf "    'short int'              => 0x%lx,\n" [.sizeof [.short, .int]],
    .printf "    'signed short'           => 0x%lx,\n" [.sizeof [.signed, .short]],
    .printf "    'signed short int'       => 0x%lx,\n" [.sizeof [.signed, .short, .int]],
    .printf "    'unsigned short'         => 0x%lx,\n" [.sizeof [.unsigned, .short]],
    .printf "    'unsigned short int'     => 0x%lx,\n" [.sizeof [.unsigned, .short, .int]],
    .printf "    'short unsigned int'     => 0x%lx,\n" [.sizeof [.unsigned, .short, .int]],
    .printf "    int                      => 0x%lx,\n" [.sizeof [.int]],
    .printf "     signed                  => 0x%lx,\n" [.sizeof [.signed]],
    .printf "    'signed int'             => 0x%lx,\n" [.sizeof [.signed, .int]],
    .printf "     long                    => 0x%lx,\n" [.sizeof [.long]],
    .printf "    'long int'               => 0x%lx,\n" [.sizeof [.long, .int]],
    .printf "    'signed long'            => 0x%lx,\n" [.sizeof [.signed, .long]],
    .printf "    'signed long int'        => 0x%lx,\n" [.sizeof [.signed, .long, .int]],
    .printf "    'unsigned long'          => 0x%lx,\n" [.sizeof [.unsigned, .long]],
    .printf "    'unsigned long int'      => 0x%lx,\n" [.sizeof [.unsigned, .long, .int]],
    .printf "    'long unsigned int'      => 0x%lx,\n" [.sizeof [.long, .unsigned, .int]],
    .printf "    float                    => 0x%lx,\n" [.sizeof [.float]],
    .printf "    double                   => 0x%lx,\n" [.sizeof [.double]],
    .printf "    'long double'            => 0x%lx,\n" [.sizeof [.long, .double]],
    .printf "    size_t                   => 0x%lx\n" [.sizeof [.size_t]],
    .printf ");\n\n1;\n__END__\n" [] ]

/-- The body of `main` in `engine/PerlLib/h2ph/H2ph.c`. -/
def main (DEBUG : DebugMacro) : List Stmt :=
  prologue ++ (if ppIf DEBUG then debugRegion else []) ++ table

end Engine

namespace Backend

/-- Lines 24 to 61 of `src/backend/h2ph/H2ph.c`: the adjacent string literals of the first
`printf` that stand before `#ifdef DEBUG`. -/
def headFmt : String :=
  String.join
  [ "# i-MSCP - internet Multi Server Control Panel\n",
    "# Copyright (C) 2010-2018 Laurent Declercq <l.declercq@nuxwin.com>\n",
    "# \n",
    "# This library is free software; you can redistribute it and/or\n",
    "# modify it under the terms of the GNU Lesser General Public\n",
    "# License as published by the Free Software Foundation; either\n",
    "# version 2.1 of the License, or (at your option) any later version.\n",
    "# \n",
    "# This library is distributed in the hope that it will be useful,\n",
    "# but WITHOUT ANY WARRANTY; without even the implied warranty of\n",
    "# MERCHANTABILITY or FITNESS FOR A PARTICULAR PURPOSE. See the GNU\n",
    "# Lesser General Public License for more details.\n",
    "# \n",
    "# You should have received a copy of the GNU Lesser General Public\n",
    "# License along with this library; if not, write to the Free Software\n",
    "# Foundation, Inc., 51 Franklin St, Fifth Floor, Boston, MA 02110-1301 USA\n",
    "\n",
    "package iMSCP::H2ph;\n",
    "\n",
    "use strict;\n",
    "use warnings;\n",
    "\n",
    "\x7b\n",
    "    # Loads the required perl header files.\n",
    "    no warnings 'portable';\n",
    "    require 'syscall.ph';\n",
    "    require 'linux/fs.ph';\n",
    "    require 'sys/mount.ph';\n",
    "\x7d\n",
    "\n",
    "# We need build the %%sizeof hash as the H2PH(1) converter\n",
    "# doesn't do that for us.\n",
    "# See https://bugs.debian.org/cgi-bin/bugreport.cgi?bug=190887\n" ]

/-- Lines 64 to 78: the literals between `#ifdef DEBUG` and `#else`. -/
def debugFmt : String :=
  String.join
  [ "\n",
    "\x7b\n",
    "    package iMSCP::H2ph::HASH;\n",
    "    require Tie::Hash;\n",
    "    our @ISA = qw/ Tie::StdHash /;\n\n",
    "    sub FETCH \x7b\n",
    "        my $context = sprintf qq[in %%s file %%s at line %%s.], caller;\n",
    "        warn qq[No sizeof for C type '$_[1]' $context\\n] unless exists $_[0]\x7b$_[1]\x7d;\n",
    "        return $_[0]\x7b$_[1]\x7d;\n",
    "    \x7d\n",
    "\x7d\n",
    "\n",
    "tie our %%sizeof, 'iMSCP::H2ph::HASH';\n",
    "\n",
    "%%sizeof = (\n" ]

/-- Line 80: the literal between `#else` and `#endif`. -/
def plainFmt : String :=
  String.join
  [ "our %%sizeof = (\n" ]

/-- Lines 84 to 123: the calls after the first one. -/
def table : List Stmt :=
  [ .printf "    char                     => 0x%lx,\n" [.sizeof [.char]],
    .printf "    'signed char'            => 0x%lx,\n" [.sizeof [.signed, .char]],
    .printf "    'unsigned char'          => 0x%lx,\n" [.sizeof [.unsigned, .char]],
    .printf "    'char unsigned'          => 0x%lx,\n" [.sizeof [.char, .unsigned]],
    .printf "     short                   => 0x%lx,\n" [.sizeof [.short]],
    .printf "    'short int'              => 0x%lx,\n" [.sizeof [.short, .int]],
    .printf "    'signed short'           => 0x%lx,\n" [.sizeof [.signed, .short]],
    .printf "    'signed short int'       => 0x%lx,\n" [.sizeof [.signed, .short, .int]],
    .printf "    'unsigned short'         => 0x%lx,\n" [.sizeof [.unsigned, .short]],
    .printf "    'short unsigned'         => 0x%lx,\n" [.sizeof [.short, .unsigned]],
    .printf "    'unsigned short int'     => 0x%lx,\n" [.sizeof [.unsigned, .short, .int]],
    .printf "    'short unsigned int'     => 0x%lx,\n" [.sizeof [.short, .unsigned, .int]],
    .printf "    int                      => 0x%lx,\n" [.sizeof [.int]],
    .printf "     signed                  => 0x%lx,\n" [.sizeof [.signed]],
    .printf "    'signed int'             => 0x%lx,\n" [.sizeof [.signed, .int]],
    .printf "     long                    => 0x%lx,\n" [.sizeof [.long]],
    .printf "    'long int'               => 0x%lx,\n" [.sizeof [.long, .int]],
    .printf "    'signed long'            => 0x%lx,\n" [.sizeof [.signed, .long]],
    .printf "    'signed long int'        => 0x%lx,\n" [.sizeof [.signed, .long, .int]],
    .printf "    'unsigned long'          => 0x%lx,\n" [.sizeof [.unsigned, .long]],
    .printf "    'long unsigned'          => 0x%lx,\n" [.sizeof [.long, .unsigned]],
    .printf "    'unsigned long int'      => 0x%lx,\n" [.sizeof [.unsigned, .long, .int]],
    .printf "    'long unsigned int'      => 0x%lx,\n" [.sizeof [.long, .unsigned, .int]],
    .printf "    'long long'              => 0x%lx,\n" [.sizeof [.long, .long]],
    .printf "    'long long int'          => 0x%lx,\n" [.sizeof [.long, .long, .int]],
    .printf "    'signed long long'       => 0x%lx,\n" [.sizeof [.signed, .long, .long]],
    .printf "    'signed long long int'   => 0x%lx,\n" [.sizeof [.signed, .long, .long, .int]],
    .printf "    'unsigned long long'     => 0x%lx,\n" [.sizeof [.unsigned, .long, .long]],
    .printf "    'long long unsigned'     => 0x%lx,\n" [.sizeof [.long, .long, .unsigned]],
    .printf "    'unsigned long long int' => 0x%lx,\n" [.sizeof [.unsigned, .long, .long, .int]],
    .printf "    'long long unsigned int' => 0x%lx,\n" [.sizeof [.long, .long, .unsigned, .int]],
    .printf "    float                    => 0x%lx,\n" [.sizeof [.float]],
    .printf "    double                   => 0x%lx,\n" [.sizeof [.double]],
    .printf "    'long double'            => 0x%lx,\n" [.sizeof [.long, .double]],
    .printf "    size_t                   => 0x%lx\n" [.sizeof [.size_t]],
    .printf ");\n\n1;\n__END__\n" [] ]

/-- The body of `main` in `src/backend/h2ph/H2ph.c`: the first `printf` takes the
concatenation of the literals the preprocessor leaves. -/
def main (DEBUG : DebugMacro) : List Stmt :=
  .printf (headFmt ++ (if ppIfdef DEBUG then debugFmt else plainFmt)) [] :: table

end Backend

/-- The two generators. -/
inductive Emitter
  | engine | backend
  deriving DecidableEq, Repr

/-- The body of `main` of a generator. -/
def Emitter.main : Emitter → DebugMacro → List Stmt
  | .engine, DEBUG => Engine.main DEBUG
  | .backend, DEBUG => Backend.main DEBUG

/-- Whether the `DEBUG` region of a generator is compiled in. -/
def Emitter.debugOn : Emitter → DebugMacro → Bool
  | .engine, DEBUG => ppIf DEBUG
  | .backend, DEBUG => ppIfdef DEBUG

/-! ## Semantics of `printf` -/

/-- What a call of `printf` writes: a character of the format, or the `%lx` conversion of
`sizeof` of a type. -/
inductive Item
  | chr (c : Char)
  | lx (T : CType)
  deriving DecidableEq, Repr

/-- Expansion of a format string: `%%` writes `%`, `%lx` converts the next argument, any
other directive is not defined; arguments left over are ignored. -/
def expand : List Char → List CType → Option (List Item)
  | [], _ => some []
  | '%' :: '%' :: cs, ts => (expand cs ts).map (Item.chr '%' :: ·)
  | '%' :: 'l' :: 'x' :: cs, t :: ts => (expand cs ts).map (Item.lx t :: ·)
  | '%' :: _, _ => none
  | c :: cs, ts => (expand cs ts).map (Item.chr c :: ·)

/-- The type of an argument. -/
def Arg.type : Arg → Option CType
  | .sizeof T => resolve T

/-- The items one statement writes. -/
def Stmt.items : Stmt → Option (List Item)
  | .printf fmt args => (args.mapM Arg.type).bind (expand fmt.toList)

/-- The items a list of statements writes, in order. -/
def compile : List Stmt → Option (List Item)
  | [] => some []
  | s :: ss => (s.items).bind fun a => (compile ss).map (a ++ ·)

/-- The character of a hexadecimal digit below 16, lowercase. -/
def hexChar (d : Nat) : Char :=
  if d < 10 then Char.ofNat (48 + d) else Char.ofNat (87 + d)

/-- The hexadecimal digits of `n`, most significant first, before `acc`; `fuel` bounds the
number of digits. -/
def hexAux : Nat → Nat → List Char → List Char
  | 0, _, acc => acc
  | fuel + 1, n, acc =>
    if n < 16 then hexChar n :: acc else hexAux fuel (n / 16) (hexChar (n % 16) :: acc)

/-- The `%lx` conversion of a `sizeof` value: the argument is read as a 64-bit `unsigned long`
and written in lowercase hexadecimal without leading zeros. -/
def lx (n : Nat) : List Char :=
  hexAux 16 (n % 2 ^ 64) []

/-- A platform gives every scalar type its size in bytes. -/
abbrev Platform := CType → Nat

/-- The text of a list of items on a platform. -/
def render (sz : Platform) : List Item → List Char
  | [] => []
  | .chr c :: is => c :: render sz is
  | .lx T :: is => lx (sz T) ++ render sz is

/-- The standard output of a run of a generator built with `DEBUG` on the platform `sz`. -/
def stdout (em : Emitter) (DEBUG : DebugMacro) (sz : Platform) : Option (List Char) :=
  (compile (em.main DEBUG)).map (render sz)

/-- The conventional LP64 sizes. -/
def lp64 : Platform
  | .char | .schar | .uchar => 1
  | .short | .ushort => 2
  | .int | .uint => 4
  | .long | .ulong => 8
  | .llong | .ullong => 8
  | .float => 4
  | .double => 8
  | .ldouble => 16
  | .size_t => 8

/-! ## Reading the output -/

/-- The pieces of a text between occurrences of `sep`; a text ending in `sep` has an empty
last piece. -/
def splitChar (sep : Char) : List Char → List (List Char)
  | [] => [[]]
  | c :: cs =>
    if c = sep then [] :: splitChar sep cs
    else
      match splitChar sep cs with
      | [] => [[c]]
      | l :: ls => (c :: l) :: ls

/-- The lines of a text. -/
def lines (out : List Char) : List (List Char) :=
  splitChar '\n' out

/-- The text before and the text after the first `=>` of a line. -/
def splitArrow : List Char → Option (List Char × List Char)
  | [] => none
  | c :: cs =>
    if c = '=' ∧ cs.head? = some '>' then some ([], cs.tail)
    else (splitArrow cs).map fun p => (c :: p.1, p.2)

/-- A table entry line is a line with `=>`. -/
def isEntryLine (l : List Char) : Bool :=
  (splitArrow l).isSome

/-- The table entry lines of an output, in order. -/
def entryLines (out : List Char) : List (List Char) :=
  (lines out).filter isEntryLine

/-- A text without the blanks at its ends. -/
def trim (s : List Char) : List Char :=
  ((s.dropWhile (· == ' ')).reverse.dropWhile (· == ' ')).reverse

/-- The key of an entry line as written: the text before `=>`, padding removed. -/
def keyText (l : List Char) : List Char :=
  match splitArrow l with
  | some (a, _) => trim a
  | none => []

/-- A key without its surrounding single quotes. -/
def unquote (s : List Char) : List Char :=
  match s with
  | '\'' :: t => if t.getLast? = some '\'' then t.dropLast else s
  | _ => s

/-- The key of an entry line: the spelling of a type. -/
def keyOf (l : List Char) : List Char :=
  unquote (keyText l)

/-- The text after `=>`, padding removed, up to the end of the line. -/
def field (l : List Char) : List Char :=
  match splitArrow l with
  | some (_, b) => b.dropWhile (· == ' ')
  | none => []

/-- Whether an entry line ends with the separator `,`. -/
def hasSeparator (l : List Char) : Bool :=
  (field l).getLast? == some ','

/-- The value of an entry line: the text after `=>` without padding and separator. -/
def valueText (l : List Char) : List Char :=
  if hasSeparator l then (field l).dropLast else field l

/-- The value of a lowercase hexadecimal digit. -/
def hexVal (c : Char) : Option Nat :=
  if '0' ≤ c ∧ c ≤ '9' then some (c.toNat - 48)
  else if 'a' ≤ c ∧ c ≤ 'f' then some (c.toNat - 87)
  else none

/-- The number a text of lowercase hexadecimal digits, read after `acc`, stands for. -/
def readHexFrom (acc : Nat) : List Char → Option Nat
  | [] => some acc
  | c :: cs => (hexVal c).bind fun d => readHexFrom (16 * acc + d) cs

/-- The number a nonempty text of lowercase hexadecimal digits stands for. -/
def readHex (ds : List Char) : Option Nat :=
  if ds = [] then none else readHexFrom 0 ds

/-- The number a literal `0x...` stands for. -/
def readLiteral : List Char → Option Nat
  | '0' :: 'x' :: ds => readHex ds
  | _ => none

/-- The specifier a word spells. -/
def specOfWord (w : List Char) : Option Spec :=
  if w = "char".toList then some .char
  else if w = "short".toList then some .short
  else if w = "int".toList then some .int
  else if w = "long".toList then some .long
  else if w = "signed".toList then some .signed
  else if w = "unsigned".toList then some .unsigned
  else if w = "float".toList then some .float
  else if w = "double".toList then some .double
  else if w = "size_t".toList then some .size_t
  else none

/-- The words of a key. -/
def words (key : List Char) : List (List Char) :=
  (splitChar ' ' key).filter (· ≠ [])

/-- The C type a key names. -/
def denote (key : List Char) : Option CType :=
  ((words key).mapM specOfWord).bind resolve

/-! ## Layout of the output -/

/-- A line as the program lays it out: plain text, or text around one `%lx` conversion. -/
inductive Line
  | plain (s : List Char)
  | entry (pre : List Char) (T : CType) (post : List Char)
  deriving DecidableEq, Repr

/-- The text of a line on a platform. -/
def Line.text (sz : Platform) : Line → List Char
  | .plain s => s
  | .entry pre T post => pre ++ (lx (sz T) ++ post)

/-- Put a character in front of a line. -/
def Line.cons (c : Char) : Line → Line
  | .plain s => .plain (c :: s)
  | .entry pre T post => .entry (c :: pre) T post

/-- The characters of items that hold no conversion. -/
def chars : List Item → Option (List Char)
  | [] => some []
  | .chr c :: is => (chars is).map (c :: ·)
  | .lx _ :: _ => none

/-- The line a list of items without newline makes, if it holds at most one conversion. -/
def classify : List Item → Option Line
  | [] => some (.plain [])
  | .chr c :: is => (classify is).map (Line.cons c)
  | .lx T :: is => (chars is).map fun post => .entry [] T post

/-- The items of a program cut at the newlines. -/
def itemLines : List Item → List (List Item)
  | [] => [[]]
  | .chr c :: is =>
    if c = '\n' then [] :: itemLines is
    else
      match itemLines is with
      | [] => [[.chr c]]
      | l :: ls => (.chr c :: l) :: ls
  | .lx T :: is =>
    match itemLines is with
    | [] => [[.lx T]]
    | l :: ls => (.lx T :: l) :: ls

/-- Classify every piece of a list. -/
def classifyAll : List (List Item) → Option (List Line)
  | [] => some []
  | l :: ls => (classify l).bind fun x => (classifyAll ls).map (x :: ·)

/-- The layout of a compiled program. -/
def layoutOf (is : List Item) : Option (List Line) :=
  classifyAll (itemLines is)

/-- The layout of a generator, by whether its `DEBUG` region is compiled in. -/
def layout (em : Emitter) (dbg : Bool) : List Line :=
  (((compile (em.main (if dbg then some 1 else none))).bind layoutOf).getD [])

/-- Whether a line of the layout holds a conversion. -/
def Line.isEntry : Line → Bool
  | .plain _ => false
  | .entry _ _ _ => true

/-- The characters of a line of the layout without its conversion. -/
def Line.fixedText : Line → List Char
  | .plain s => s
  | .entry pre _ post => pre ++ post

/-- The check that a line of the layout reads as it is laid out: a plain line has no `=>`;
an entry has `=>` before its conversion, the conversion directly follows `0x`, and the rest of
the line is a separator or nothing. -/
def Line.ok : Line → Bool
  | .plain s => !isEntryLine s
  | .entry pre _ post =>
    match splitArrow pre with
    | some (_, b) => b.dropWhile (· == ' ') == ['0', 'x'] && (post == [','] || post == [])
    | none => false

/-- The key of an entry of the layout as written. -/
def Line.keyText : Line → List Char
  | .plain _ => []
  | .entry pre _ _ => H2ph.keyText pre

/-- The type whose size an entry of the layout converts. -/
def Line.type : Line → Option CType
  | .plain _ => none
  | .entry _ T _ => some T

/-- Whether an entry of the layout ends with a separator. -/
def Line.sep : Line → Bool
  | .plain _ => false
  | .entry _ _ post => post == [',']

/-- The value text of an entry of the layout on a platform. -/
def Line.value (sz : Platform) : Line → List Char
  | .plain _ => []
  | .entry _ T _ => '0' :: 'x' :: lx (sz T)

/-- The entries of the layout of a generator. -/
def tableLines (em : Emitter) : List Line :=
  (layout em false).filter Line.isEntry

/-- The lines of the layout before the first entry. -/
def headLines (em : Emitter) (dbg : Bool) : List (List Char) :=
  ((layout em dbg).takeWhile fun l => !l.isEntry).map Line.fixedText

/-- The lines both generators print after the last entry. -/
def footLines : List (List Char) :=
  [");".toList, [], "1;".toList, "__END__".toList, []]



/-- The items of a generator, by whether its `DEBUG` region is compiled in. -/
def items (em : Emitter) (dbg : Bool) : List Item :=
  (compile (em.main (if dbg then some 1 else none))).getD []

/-! ## Reading the scaffolding -/

/-- The rest of `l` after the text `needle` at its start, if `l` starts with it. -/
def dropPrefix? : List Char → List Char → Option (List Char)
  | [], l => some l
  | _ :: _, [] => none
  | a :: as, b :: bs => if a = b then dropPrefix? as bs else none

/-- Whether `needle` occurs somewhere in `l`. -/
def occursIn (needle : List Char) : List Char → Bool
  | [] => needle.isEmpty
  | c :: cs => (dropPrefix? needle (c :: cs)).isSome || occursIn needle cs

/-- The module a line `require '<name>.ph';` names. -/
def requireName (l : List Char) : Option (List Char) :=
  match dropPrefix? "require '".toList (l.dropWhile (· == ' ')) with
  | none => none
  | some rest =>
    let name := rest.takeWhile (· != '\'')
    if rest.drop name.length = "';".toList ∧ ".ph".toList.isSuffixOf name then some name
    else none

/-- The companion modules the `require` lines of an output name, in order. -/
def companionRequires (out : List Char) : List (List Char) :=
  (lines out).filterMap requireName

/-- The lines of an output before its first companion `require` line, indentation removed. -/
def preRequireLines (out : List Char) : List (List Char) :=
  ((lines out).takeWhile fun l => (requireName l).isNone).map trim

/-- Whether an output has a companion `require` line. -/
def hasRequire (out : List Char) : Bool :=
  (lines out).any fun l => (requireName l).isSome

/-- A line that pushes onto `@INC` a directory relative to the directory of the module's own
file and ending in `inc`. -/
def isPushIncDir (l : List Char) : Bool :=
  (dropPrefix? "push @INC, \"@\x7b[ dirname __FILE__]\x7d/".toList l).isSome &&
    "/inc\";".toList.isSuffixOf l

/-- The extension of the module search path: some line is such a push. -/
def addsIncDir (ls : List (List Char)) : Bool :=
  ls.any isPushIncDir

/-- Both `%INC` and `@INC` are made local before the first statement that changes `@INC`. -/
def localisesInc (ls : List (List Char)) : Bool :=
  let before := ls.takeWhile fun l => !(dropPrefix? "push @INC".toList l).isSome
  before.contains "local %INC;".toList && before.contains "local @INC = @INC;".toList

/-- The warning class `portable` is switched off. -/
def disablesPortable (ls : List (List Char)) : Bool :=
  ls.contains "no warnings 'portable';".toList

/-- The lines of the block that holds the companion `require` lines: from the first line
ending in an opening brace up to the first line that is a closing brace. -/
def setupBlock (out : List Char) : List (List Char) :=
  (((lines out).dropWhile fun l => !"\x7b".toList.isSuffixOf l).takeWhile
    fun l => l != "\x7d".toList).map trim

/-- The license header both generators print first. -/
def licenseHeader : List (List Char) :=
  [ "# i-MSCP - internet Multi Server Control Panel".toList,
    "# Copyright (C) 2010-2018 Laurent Declercq <l.declercq@nuxwin.com>".toList,
    "# ".toList,
    "# This library is free software; you can redistribute it and/or".toList,
    "# modify it under the terms of the GNU Lesser General Public".toList,
    "# License as published by the Free Software Foundation; either".toList,
    "# version 2.1 of the License, or (at your option) any later version.".toList,
    "# ".toList,
    "# This library is distributed in the hope that it will be useful,".toList,
    "# but WITHOUT ANY WARRANTY; without even the implied warranty of".toList,
    "# MERCHANTABILITY or FITNESS FOR A PARTICULAR PURPOSE. See the GNU".toList,
    "# Lesser General Public License for more details.".toList,
    "# ".toList,
    "# You should have received a copy of the GNU Lesser General Public".toList,
    "# License along with this library; if not, write to the Free Software".toList,
    "# Foundation, Inc., 51 Franklin St, Fifth Floor, Boston, MA 02110-1301 USA".toList ]

/-- The statements a generator runs before its `DEBUG` region: for the backend the first
`printf` with the literals that stand before `#ifdef DEBUG`. -/
def Emitter.beforeDebug : Emitter → List Stmt
  | .engine => Engine.prologue
  | .backend => [.printf Backend.headFmt []]

/-- The items written before the `DEBUG` region. -/
def headItems (em : Emitter) : List Item :=
  (compile em.beforeDebug).getD []

/-- The keys of the `long long` family: the word `long` twice. -/
def isLongLongKey (key : List Char) : Bool :=
  (words key).count "long".toList == 2

/-- The eleven keys only the backend table has. -/
def backendOnlyKeys : List (List Char) :=
  [ "long long".toList, "long long int".toList, "signed long long".toList,
    "signed long long int".toList, "unsigned long long".toList,
    "unsigned long long int".toList, "char unsigned".toList, "short unsigned".toList,
    "long unsigned".toList, "long long unsigned".toList, "long long unsigned int".toList ]

/-- The check on an entry of the layout that it is no `require` line. -/
def Line.noRequire : Line → Bool
  | .plain _ => true
  | .entry pre _ _ =>
    (dropPrefix? "require '".toList (pre.dropWhile (· == ' '))).isNone &&
      decide ("require '".toList.length ≤ (pre.dropWhile (· == ' ')).length)

/-- The key of an entry of the layout. -/
def Line.key (ln : Line) : List Char :=
  unquote ln.keyText

/-! ## Auxiliary definitions -/

/-- The sixteen lowercase hexadecimal digits. -/
def hexDigits : List Char := "0123456789abcdef".toList

/-- Put a text in front of the first piece of a list of pieces. -/
def prependHead (a : List Char) : List (List Char) → List (List Char)
  | [] => [a]
  | l :: ls => (a ++ l) :: ls

/-- The text of a list of lines: a newline between any two. -/
def unlines : List (List Char) → List Char
  | [] => []
  | [l] => l
  | l :: l2 :: ls => l ++ '\n' :: unlines (l2 :: ls)

/-! ## Hexadecimal digits -/

theorem hexChar_mem (d : Nat) (h : d < 16) : hexChar d ∈ hexDigits := by
  interval_cases d <;> decide

theorem hexVal_hexChar (d : Nat) (h : d < 16) : hexVal (hexChar d) = some d := by
  interval_cases d <;> decide

theorem hexChar_ne_zero (d : Nat) (h : d < 16) (h0 : 0 < d) : hexChar d ≠ '0' := by
  interval_cases d <;> decide

theorem hexAux_shape (fuel n : Nat) (acc : List Char) :
    ∃ ds, hexAux fuel n acc = ds ++ acc ∧ (0 < fuel → ds ≠ []) ∧ ∀ c ∈ ds, c ∈ hexDigits := by
  induction fuel generalizing n acc with
  | zero => exact ⟨[], by simp [hexAux]⟩
  | succ k ih =>
    unfold hexAux
    split
    · rename_i h
      exact ⟨[hexChar n], by simp, by simp, by simpa using hexChar_mem n h⟩
    · obtain ⟨ds, hds, _, hall⟩ := ih (n / 16) (hexChar (n % 16) :: acc)
      refine ⟨ds ++ [hexChar (n % 16)], by simp [hds], by simp, ?_⟩
      intro c hc
      rcases List.mem_append.1 hc with h | h
      · exact hall c h
      · have : c = hexChar (n % 16) := by simpa using h
        subst this
        exact hexChar_mem _ (Nat.mod_lt _ (by norm_num))

theorem readHexFrom_hexAux (fuel : Nat) :
    ∀ n acc, n < 16 ^ fuel → readHexFrom 0 (hexAux fuel n acc) = readHexFrom n acc := by
  induction fuel with
  | zero =>
    intro n acc h
    have : n = 0 := by simpa using h
    subst this
    simp [hexAux]
  | succ k ih =>
    intro n acc h
    unfold hexAux
    split
    · rename_i h16
      simp [readHexFrom, hexVal_hexChar n h16]
    · rename_i h16
      have hdiv : n / 16 < 16 ^ k := by
        rw [Nat.div_lt_iff_lt_mul (by norm_num)]
        rw [pow_succ] at h
        exact h
      rw [ih _ _ hdiv]
      simp only [readHexFrom, hexVal_hexChar _ (Nat.mod_lt n (by norm_num : 16 > 0)), Option.some_bind]
      rw [Nat.div_add_mod]

theorem head_hexAux (fuel : Nat) :
    ∀ n acc, n < 16 ^ fuel → 0 < n → ∃ d, 0 < d ∧ d < 16 ∧
      (hexAux fuel n acc).head? = some (hexChar d) := by
  induction fuel with
  | zero =>
    intro n acc h h0
    simp at h
    omega
  | succ k ih =>
    intro n acc h h0
    unfold hexAux
    split
    · rename_i h16
      exact ⟨n, h0, h16, by simp⟩
    · rename_i h16
      have hdiv : n / 16 < 16 ^ k := by
        rw [Nat.div_lt_iff_lt_mul (by norm_num)]
        rw [pow_succ] at h
        exact h
      have hpos : 0 < n / 16 := Nat.div_pos (by omega) (by norm_num)
      exact ih _ _ hdiv hpos

theorem lx_mem_hexDigits (n : Nat) : ∀ c ∈ lx n, c ∈ hexDigits := by
  obtain ⟨ds, hds, _, hall⟩ := hexAux_shape 16 (n % 2 ^ 64) []
  intro c hc
  unfold lx at hc
  rw [hds] at hc
  exact hall c (by simpa using hc)

theorem lx_ne_nil (n : Nat) : lx n ≠ [] := by
  obtain ⟨ds, hds, hne, _⟩ := hexAux_shape 16 (n % 2 ^ 64) []
  unfold lx
  rw [hds]
  simpa using hne (by norm_num)

theorem readHex_lx (n : Nat) : readHex (lx n) = some (n % 2 ^ 64) := by
  have h : n % 2 ^ 64 < 16 ^ 16 := by
    have : (16 : Nat) ^ 16 = 2 ^ 64 := by norm_num
    rw [this]
    exact Nat.mod_lt _ (by positivity)
  unfold readHex
  rw [if_neg (lx_ne_nil n)]
  unfold lx
  rw [readHexFrom_hexAux 16 _ _ h]
  rfl

theorem lx_zero_of (n : Nat) (h : n % 2 ^ 64 = 0) : lx n = ['0'] := by
  unfold lx
  rw [h]
  decide

theorem lx_head_ne_zero (n : Nat) (h : n % 2 ^ 64 ≠ 0) : (lx n).head? ≠ some '0' := by
  have hb : n % 2 ^ 64 < 16 ^ 16 := by
    have : (16 : Nat) ^ 16 = 2 ^ 64 := by norm_num
    rw [this]
    exact Nat.mod_lt _ (by positivity)
  obtain ⟨d, hd0, hd16, hhead⟩ := head_hexAux 16 _ [] hb (Nat.pos_of_ne_zero h)
  unfold lx
  rw [hhead]
  intro hc
  exact hexChar_ne_zero d hd16 hd0 (by simpa using hc)

theorem newline_not_mem_lx (n : Nat) : '\n' ∉ lx n := by
  intro h
  have := lx_mem_hexDigits n _ h
  revert this
  decide

theorem getLast_lx_ne_comma (n : Nat) : (lx n).getLast? ≠ some ',' := by
  intro h
  have hm : ',' ∈ lx n := List.mem_of_getLast?_eq_some h
  have := lx_mem_hexDigits n _ hm
  revert this
  decide

/-! ## Lines -/

theorem splitChar_ne_nil (sep : Char) (s : List Char) : splitChar sep s ≠ [] := by
  cases s with
  | nil => simp [splitChar]
  | cons c cs =>
    unfold splitChar
    split
    · simp
    · split <;> simp

theorem unlines_splitChar (s : List Char) : unlines (splitChar '\n' s) = s := by
  induction s with
  | nil => rfl
  | cons c cs ih =>
    unfold splitChar
    split
    · rename_i h
      have hne := splitChar_ne_nil '\n' cs
      cases hs : splitChar '\n' cs with
      | nil => exact absurd hs hne
      | cons l ls =>
        rw [hs] at ih
        simp [unlines, ih, h]
    · cases hs : splitChar '\n' cs with
      | nil => exact absurd hs (splitChar_ne_nil '\n' cs)
      | cons l ls =>
        rw [hs] at ih
        cases ls with
        | nil =>
          simp only [unlines] at ih ⊢
          rw [ih]
        | cons l2 ls2 =>
          simp only [unlines] at ih ⊢
          rw [← ih]
          simp

theorem lines_injective (a b : List Char) (h : lines a = lines b) : a = b := by
  have ha := unlines_splitChar a
  have hb := unlines_splitChar b
  unfold lines at h
  rw [h] at ha
  exact ha.symm.trans hb

theorem splitChar_cons (sep c : Char) (cs : List Char) :
    splitChar sep (c :: cs) =
      if c = sep then [] :: splitChar sep cs else prependHead [c] (splitChar sep cs) := by
  rw [splitChar]
  split
  · rfl
  · cases hs : splitChar sep cs with
    | nil => exact absurd hs (splitChar_ne_nil sep cs)
    | cons l ls => rfl

theorem prependHead_append (a b : List Char) (L : List (List Char)) (h : L ≠ []) :
    prependHead a (prependHead b L) = prependHead (a ++ b) L := by
  cases L with
  | nil => exact absurd rfl h
  | cons l ls => simp [prependHead]

theorem prependHead_nil (L : List (List Char)) (h : L ≠ []) : prependHead [] L = L := by
  cases L with
  | nil => exact absurd rfl h
  | cons l ls => simp [prependHead]

theorem splitChar_append (sep : Char) (a r : List Char) (h : sep ∉ a) :
    splitChar sep (a ++ r) = prependHead a (splitChar sep r) := by
  induction a with
  | nil => simp [prependHead_nil _ (splitChar_ne_nil sep r)]
  | cons c cs ih =>
    have hc : ¬ c = sep := fun e => h (by simp [e])
    have hcs : sep ∉ cs := fun e => h (by simp [e])
    rw [List.cons_append, splitChar_cons, if_neg hc, ih hcs,
      prependHead_append _ _ _ (splitChar_ne_nil sep r)]
    rfl

theorem itemLines_ne_nil (is : List Item) : itemLines is ≠ [] := by
  cases is with
  | nil => simp [itemLines]
  | cons i is =>
    cases i with
    | chr c =>
      rw [itemLines]
      split
      · simp
      · split <;> simp
    | lx T =>
      rw [itemLines]
      split <;> simp

theorem lines_render (sz : Platform) (is : List Item) :
    lines (render sz is) = (itemLines is).map (render sz) := by
  unfold lines
  induction is with
  | nil => rfl
  | cons i is ih =>
    cases i with
    | chr c =>
      rw [render, splitChar_cons, itemLines, ih]
      by_cases hc : c = '\n'
      · rw [if_pos hc, if_pos hc]
        rfl
      · rw [if_neg hc, if_neg hc]
        cases hs : itemLines is with
        | nil => exact absurd hs (itemLines_ne_nil is)
        | cons l ls => rfl
    | lx T =>
      rw [render, splitChar_append _ _ _ (newline_not_mem_lx _), ih, itemLines]
      cases hs : itemLines is with
      | nil => exact absurd hs (itemLines_ne_nil is)
      | cons l ls => rfl

theorem render_chars (sz : Platform) (is : List Item) (s : List Char)
    (h : chars is = some s) : render sz is = s := by
  induction is generalizing s with
  | nil =>
    simp [chars] at h
    simp [render, h]
  | cons i is ih =>
    cases i with
    | chr c =>
      simp only [chars, Option.map_eq_some'] at h
      obtain ⟨t, ht, rfl⟩ := h
      simp [render, ih t ht]
    | lx T => simp [chars] at h

theorem text_cons (sz : Platform) (c : Char) (ln : Line) :
    (Line.cons c ln).text sz = c :: ln.text sz := by
  cases ln <;> rfl

theorem render_classify (sz : Platform) (is : List Item) (ln : Line)
    (h : classify is = some ln) : render sz is = ln.text sz := by
  induction is generalizing ln with
  | nil =>
    simp [classify] at h
    subst h
    rfl
  | cons i is ih =>
    cases i with
    | chr c =>
      simp only [classify, Option.map_eq_some'] at h
      obtain ⟨t, ht, rfl⟩ := h
      rw [text_cons, ← ih t ht]
      rfl
    | lx T =>
      simp only [classify, Option.map_eq_some'] at h
      obtain ⟨post, hp, rfl⟩ := h
      simp [render, Line.text, render_chars sz is post hp]

theorem map_render_classifyAll (sz : Platform) (ls : List (List Item)) (L : List Line)
    (h : classifyAll ls = some L) : ls.map (render sz) = L.map (Line.text sz) := by
  induction ls generalizing L with
  | nil =>
    simp [classifyAll] at h
    subst h
    rfl
  | cons l ls ih =>
    simp only [classifyAll, Option.bind_eq_some, Option.map_eq_some'] at h
    obtain ⟨x, hx, L2, hL2, rfl⟩ := h
    simp [render_classify sz l x hx, ih L2 hL2]

/-! ## Reading an entry of the layout -/

theorem splitArrow_append (p r a b : List Char) (h : splitArrow p = some (a, b)) :
    splitArrow (p ++ r) = some (a, b ++ r) := by
  induction p generalizing a with
  | nil => simp [splitArrow] at h
  | cons c cs ih =>
    rw [splitArrow] at h
    rw [List.cons_append, splitArrow]
    by_cases hc : c = '=' ∧ cs.head? = some '>'
    · rw [if_pos hc] at h
      have hne : cs ≠ [] := by
        intro e
        rw [e] at hc
        simp at hc
      have hc2 : c = '=' ∧ (cs ++ r).head? = some '>' := by
        refine ⟨hc.1, ?_⟩
        rw [List.head?_append_of_ne_nil _ hne]
        exact hc.2
      rw [if_pos hc2]
      simp only [Option.some.injEq, Prod.mk.injEq] at h
      obtain ⟨rfl, rfl⟩ := h
      rw [List.tail_append_of_ne_nil hne]
    · rw [if_neg hc] at h
      simp only [Option.map_eq_some'] at h
      obtain ⟨⟨a2, b2⟩, hs, he⟩ := h
      simp only [Prod.mk.injEq] at he
      obtain ⟨rfl, rfl⟩ := he
      have hne : cs ≠ [] := by
        intro e
        rw [e] at hs
        simp [splitArrow] at hs
      have hc2 : ¬ (c = '=' ∧ (cs ++ r).head? = some '>') := by
        rw [List.head?_append_of_ne_nil _ hne]
        exact hc
      rw [if_neg hc2, ih a2 hs]
      rfl

theorem dropWhile_append_of_ne_nil (p : Char → Bool) (b t : List Char)
    (h : b.dropWhile p ≠ []) : (b ++ t).dropWhile p = b.dropWhile p ++ t := by
  induction b with
  | nil => simp at h
  | cons c cs ih =>
    rw [List.cons_append]
    by_cases hc : p c = true
    · rw [List.dropWhile_cons_of_pos hc] at h ⊢
      rw [List.dropWhile_cons_of_pos hc]
      exact ih h
    · rw [List.dropWhile_cons_of_neg hc, List.dropWhile_cons_of_neg hc]
      rfl

/-- What an entry of the layout that passes `Line.ok` reads as. -/
theorem read_entry (sz : Platform) (pre post : List Char) (T : CType)
    (hok : (Line.entry pre T post).ok = true) :
    isEntryLine ((Line.entry pre T post).text sz) = true ∧
    keyText ((Line.entry pre T post).text sz) = keyText pre ∧
    valueText ((Line.entry pre T post).text sz) = '0' :: 'x' :: lx (sz T) ∧
    hasSeparator ((Line.entry pre T post).text sz) = (post == [',']) := by
  simp only [Line.ok] at hok
  cases hs : splitArrow pre with
  | none => simp [hs] at hok
  | some ab =>
    obtain ⟨a, b⟩ := ab
    simp only [hs, Bool.and_eq_true, beq_iff_eq, Bool.or_eq_true] at hok
    obtain ⟨hb, hpost⟩ := hok
    have hsplit := splitArrow_append pre (lx (sz T) ++ post) a b hs
    have hfield : field ((Line.entry pre T post).text sz) =
        '0' :: 'x' :: (lx (sz T) ++ post) := by
      simp only [field, Line.text, hsplit]
      rw [dropWhile_append_of_ne_nil _ _ _ (by rw [hb]; simp), hb]
      rfl
    have hsep : hasSeparator ((Line.entry pre T post).text sz) = (post == [',']) := by
      simp only [hasSeparator, hfield]
      rcases hpost with rfl | rfl
      · have : '0' :: 'x' :: (lx (sz T) ++ [',']) = ('0' :: 'x' :: lx (sz T)) ++ [','] := rfl
        rw [this, List.getLast?_concat]
        rfl
      · have hne := lx_ne_nil (sz T)
        have hl := getLast_lx_ne_comma (sz T)
        rw [List.append_nil]
        cases hx : lx (sz T) with
        | nil => exact absurd hx hne
        | cons d ds =>
          rw [hx] at hl
          simp only [List.getLast?_cons_cons]
          have : ((d :: ds).getLast? == some ',') = false := by
            simpa using hl
          rw [this]
          rfl
    refine ⟨?_, ?_, ?_, hsep⟩
    · simp [isEntryLine, Line.text, hsplit]
    · simp [keyText, Line.text, hsplit, hs]
    · simp only [valueText, hsep, hfield]
      rcases hpost with rfl | rfl
      · have : '0' :: 'x' :: (lx (sz T) ++ [',']) = ('0' :: 'x' :: lx (sz T)) ++ [','] := rfl
        rw [this, List.dropLast_concat]
        rfl
      · simp

theorem isEntryLine_text (sz : Platform) (ln : Line) (hok : ln.ok = true) :
    isEntryLine (ln.text sz) = ln.isEntry := by
  cases ln with
  | plain s => simpa [Line.ok, Line.text, Line.isEntry] using hok
  | entry pre T post => exact (read_entry sz pre post T hok).1

theorem keyText_text (sz : Platform) (ln : Line) (hok : ln.ok = true) (he : ln.isEntry = true) :
    keyText (ln.text sz) = ln.keyText := by
  cases ln with
  | plain s => simp [Line.isEntry] at he
  | entry pre T post => exact (read_entry sz pre post T hok).2.1

theorem valueText_text (sz : Platform) (ln : Line) (hok : ln.ok = true)
    (he : ln.isEntry = true) : valueText (ln.text sz) = ln.value sz := by
  cases ln with
  | plain s => simp [Line.isEntry] at he
  | entry pre T post => exact (read_entry sz pre post T hok).2.2.1

theorem hasSeparator_text (sz : Platform) (ln : Line) (hok : ln.ok = true)
    (he : ln.isEntry = true) : hasSeparator (ln.text sz) = ln.sep := by
  cases ln with
  | plain s => simp [Line.isEntry] at he
  | entry pre T post => exact (read_entry sz pre post T hok).2.2.2

/-! ## The output of the generators -/

theorem main_debugOn (em : Emitter) (DEBUG : DebugMacro) :
    em.main DEBUG = em.main (if em.debugOn DEBUG then some 1 else none) := by
  cases em with
  | engine =>
    cases DEBUG with
    | none => rfl
    | some v =>
      by_cases hv : v = 0
      · subst hv
        rfl
      · have h1 : ppIf (some v) = true := by simp [ppIf, hv]
        simp only [Emitter.main, Emitter.debugOn, Engine.main, h1]
        rfl
  | backend =>
    cases DEBUG with
    | none => rfl
    | some v => rfl

set_option maxRecDepth 1000000 in
/-- The layout of each build, computed: the program compiles, its items lay out as
`layout`, the layout is head lines, entries and foot lines, and the text before the `DEBUG`
region starts the items. -/
theorem layout_facts (em : Emitter) (b : Bool) :
    compile (em.main (if b then some 1 else none)) = some (items em b) ∧
    layoutOf (items em b) = some (layout em b) ∧
    layout em b = (headLines em b).map .plain ++ tableLines em ++ footLines.map .plain ∧
    (∀ l ∈ headLines em b, isEntryLine l = false) ∧
    compile em.beforeDebug = some (headItems em) ∧
    (items em b).take (headItems em).length = headItems em := by
  cases em <;> cases b <;> decide!

set_option maxRecDepth 1000000 in
/-- The entries of each layout, computed. -/
theorem table_facts (em : Emitter) :
    (∀ ln ∈ tableLines em, ln.ok = true ∧ ln.isEntry = true ∧ ln.noRequire = true ∧
      denote ln.key = ln.type ∧ ln.type.isSome = true) ∧
    tableLines em ≠ [] ∧
    ((tableLines em).map Line.key).Nodup ∧
    (tableLines em).map Line.sep =
      List.replicate ((tableLines em).length - 1) true ++ [false] ∧
    ((tableLines em).map Line.key).drop ((tableLines em).length - 2) =
      ["long double".toList, "size_t".toList] ∧
    (∀ kv ∈ [("char".toList, "0x1".toList), ("int".toList, "0x4".toList),
        ("long".toList, "0x8".toList), ("size_t".toList, "0x8".toList),
        ("double".toList, "0x8".toList), ("'long double'".toList, "0x10".toList)],
      kv ∈ (tableLines em).map fun ln => (ln.keyText, ln.value lp64)) := by
  cases em <;> decide!

set_option maxRecDepth 1000000 in
/-- The entries of the two layouts compared. -/
theorem tables_related :
    ((tableLines .engine).map Line.key).filter isLongLongKey = [] ∧
    (∀ k ∈ backendOnlyKeys, k ∈ (tableLines .backend).map Line.key) ∧
    (tableLines .backend).filter (fun ln => !backendOnlyKeys.contains ln.key) =
      tableLines .engine ∧
    (tableLines .backend).length = 35 ∧ (tableLines .engine).length = 24 := by
  decide!

set_option maxRecDepth 1000000 in
/-- The setup block of each layout, computed. -/
theorem setup_facts (em : Emitter) (b : Bool) :
    (∃ x ∈ headLines em b, (requireName x).isNone = false) ∧
    (∃ x ∈ headLines em b, (!"\x7b".toList.isSuffixOf x) = false) ∧
    (∃ x ∈ (headLines em b).dropWhile (fun l => !"\x7b".toList.isSuffixOf l),
      (x != "\x7d".toList) = false) ∧
    disablesPortable (((headLines em b).takeWhile fun l => (requireName l).isNone).map trim)
      = true ∧
    (match em with
      | .engine =>
        addsIncDir (((headLines em b).takeWhile fun l => (requireName l).isNone).map trim)
          = true ∧
        localisesInc (((headLines em b).takeWhile fun l => (requireName l).isNone).map trim)
          = true
      | .backend =>
        (((headLines em b).dropWhile fun l => !"\x7b".toList.isSuffixOf l).takeWhile
          fun l => l != "\x7d".toList).map trim =
          [ "\x7b".toList, "# Loads the required perl header files.".toList,
            "no warnings 'portable';".toList, "require 'syscall.ph';".toList,
            "require 'linux/fs.ph';".toList, "require 'sys/mount.ph';".toList ]) ∧
    (headLines em b).filterMap requireName ++ footLines.filterMap requireName =
      (match em with
      | .engine => ["sys/syscall.ph".toList, "linux/fs.ph".toList]
      | .backend => ["syscall.ph".toList, "linux/fs.ph".toList, "sys/mount.ph".toList]) ∧
    ((((headLines em b).dropWhile fun l => !"\x7b".toList.isSuffixOf l).takeWhile
        fun l => l != "\x7d".toList).map trim).filterMap requireName =
      (headLines em b).filterMap requireName ++ footLines.filterMap requireName := by
  cases em <;> cases b <;> decide!

set_option maxRecDepth 1000000 in
/-- The frame of each layout, computed. -/
theorem frame_facts (em : Emitter) (b : Bool) :
    ("    package iMSCP::H2ph::HASH;".toList ∈ headLines em b ∨
      "    package iMSCP::H2ph::HASH;".toList ∈ footLines ↔ b = true) ∧
    ("    sub FETCH \x7b".toList ∈ headLines em b ∨
      "    sub FETCH \x7b".toList ∈ footLines ↔ b = true) ∧
    (("tie %sizeof, 'iMSCP::H2ph::HASH';".toList ∈ headLines em b ∨
        "tie %sizeof, 'iMSCP::H2ph::HASH';".toList ∈ footLines) ∨
      ("tie our %sizeof, 'iMSCP::H2ph::HASH';".toList ∈ headLines em b ∨
        "tie our %sizeof, 'iMSCP::H2ph::HASH';".toList ∈ footLines) ↔ b = true) ∧
    (headLines em b).take 18 = licenseHeader ++ [[], "package iMSCP::H2ph;".toList] ∧
    (∃ l ∈ headLines em b, occursIn "our %sizeof".toList l = true) := by
  cases em <;> cases b <;> decide!

set_option maxRecDepth 1000000 in
/-- Two entry lines of the outputs on LP64, computed. -/
theorem sample_lines :
    "    'long unsigned int'      => 0x8,".toList ∈
      entryLines (render lp64 (items .backend false)) ∧
    keyOf "    'long unsigned int'      => 0x8,".toList = "long unsigned int".toList ∧
    denote "long unsigned int".toList = some .ulong ∧
    "    'long double'            => 0x10,".toList ∈
      entryLines (render lp64 (items .engine false)) ∧
    denote (keyOf "    'long double'            => 0x10,".toList) = some .ldouble ∧
    valueText "    'long double'            => 0x10,".toList = "0x10".toList := by
  decide!

theorem compile_main (em : Emitter) (b : Bool) :
    compile (em.main (if b then some 1 else none)) = some (items em b) :=
  (layout_facts em b).1

theorem layoutOf_items (em : Emitter) (b : Bool) :
    layoutOf (items em b) = some (layout em b) :=
  (layout_facts em b).2.1

theorem layout_split (em : Emitter) (b : Bool) :
    layout em b = (headLines em b).map .plain ++ tableLines em ++ footLines.map .plain :=
  (layout_facts em b).2.2.1

theorem headLines_plain (em : Emitter) (b : Bool) :
    ∀ l ∈ headLines em b, isEntryLine l = false :=
  (layout_facts em b).2.2.2.1

theorem compile_beforeDebug (em : Emitter) : compile em.beforeDebug = some (headItems em) :=
  (layout_facts em false).2.2.2.2.1

theorem take_items (em : Emitter) (b : Bool) :
    (items em b).take (headItems em).length = headItems em :=
  (layout_facts em b).2.2.2.2.2

theorem tableLines_ok (em : Emitter) :
    ∀ ln ∈ tableLines em, ln.ok = true ∧ ln.isEntry = true :=
  fun ln hln => ⟨((table_facts em).1 ln hln).1, ((table_facts em).1 ln hln).2.1⟩

theorem tableLines_noRequire (em : Emitter) : ∀ ln ∈ tableLines em, ln.noRequire = true :=
  fun ln hln => ((table_facts em).1 ln hln).2.2.1

theorem tableLines_denote (em : Emitter) :
    ∀ ln ∈ tableLines em, denote ln.key = ln.type ∧ ln.type.isSome = true :=
  fun ln hln => ((table_facts em).1 ln hln).2.2.2

theorem tableLines_ne_nil (em : Emitter) : tableLines em ≠ [] :=
  (table_facts em).2.1

theorem headLines_has_require (em : Emitter) (b : Bool) :
    ∃ x ∈ headLines em b, (requireName x).isNone = false :=
  (setup_facts em b).1

theorem headLines_has_open (em : Emitter) (b : Bool) :
    ∃ x ∈ headLines em b, (!"\x7b".toList.isSuffixOf x) = false :=
  (setup_facts em b).2.1

theorem headLines_has_close (em : Emitter) (b : Bool) :
    ∃ x ∈ (headLines em b).dropWhile (fun l => !"\x7b".toList.isSuffixOf l),
      (x != "\x7d".toList) = false :=
  (setup_facts em b).2.2.1

theorem stdout_eq (em : Emitter) (DEBUG : DebugMacro) (sz : Platform) :
    stdout em DEBUG sz = some (render sz (items em (em.debugOn DEBUG))) := by
  unfold stdout
  rw [main_debugOn, compile_main]
  rfl

theorem lines_output (em : Emitter) (b : Bool) (sz : Platform) :
    lines (render sz (items em b)) =
      headLines em b ++ (tableLines em).map (Line.text sz) ++ footLines := by
  have h := layoutOf_items em b
  unfold layoutOf at h
  have hid : ∀ l : List (List Char), (l.map Line.plain).map (Line.text sz) = l := by
    intro l
    induction l with
    | nil => rfl
    | cons x xs ih => simp only [List.map_cons, ih, Line.text]
  rw [lines_render, map_render_classifyAll sz _ _ h, layout_split]
  simp only [List.map_append, hid]

theorem entryLines_output (em : Emitter) (b : Bool) (sz : Platform) :
    entryLines (render sz (items em b)) = (tableLines em).map (Line.text sz) := by
  unfold entryLines
  rw [lines_output, List.filter_append, List.filter_append]
  have h1 : (headLines em b).filter isEntryLine = [] := by
    rw [List.filter_eq_nil_iff]
    intro l hl
    simp [headLines_plain em b l hl]
  have h2 : footLines.filter isEntryLine = [] := by decide
  have h3 : ((tableLines em).map (Line.text sz)).filter isEntryLine =
      (tableLines em).map (Line.text sz) := by
    rw [List.filter_eq_self]
    intro l hl
    obtain ⟨ln, hln, rfl⟩ := List.mem_map.1 hl
    rw [isEntryLine_text sz ln (tableLines_ok em ln hln).1]
    exact (tableLines_ok em ln hln).2
  rw [h1, h2, h3]
  simp

/-! ## Lists of lines -/

theorem takeWhile_append_of_exists {α : Type} (p : α → Bool) (a b : List α)
    (h : ∃ x ∈ a, p x = false) : (a ++ b).takeWhile p = a.takeWhile p := by
  induction a with
  | nil => simp at h
  | cons c cs ih =>
    rw [List.cons_append]
    by_cases hc : p c = true
    · rw [List.takeWhile_cons_of_pos hc, List.takeWhile_cons_of_pos hc]
      obtain ⟨x, hx, hpx⟩ := h
      rcases List.mem_cons.1 hx with rfl | hx2
      · rw [hpx] at hc
        exact absurd hc (by simp)
      · rw [ih ⟨x, hx2, hpx⟩]
    · rw [List.takeWhile_cons_of_neg hc, List.takeWhile_cons_of_neg hc]

theorem dropWhile_append_of_exists {α : Type} (p : α → Bool) (a b : List α)
    (h : ∃ x ∈ a, p x = false) : (a ++ b).dropWhile p = a.dropWhile p ++ b := by
  induction a with
  | nil => simp at h
  | cons c cs ih =>
    rw [List.cons_append]
    by_cases hc : p c = true
    · rw [List.dropWhile_cons_of_pos hc, List.dropWhile_cons_of_pos hc]
      obtain ⟨x, hx, hpx⟩ := h
      rcases List.mem_cons.1 hx with rfl | hx2
      · rw [hpx] at hc
        exact absurd hc (by simp)
      · rw [ih ⟨x, hx2, hpx⟩]
    · rw [List.dropWhile_cons_of_neg hc, List.dropWhile_cons_of_neg hc]
      rfl

theorem takeWhile_append_of_all {α : Type} (p : α → Bool) (a b : List α)
    (h : ∀ x ∈ a, p x = true) : (a ++ b).takeWhile p = a ++ b.takeWhile p := by
  induction a with
  | nil => rfl
  | cons c cs ih =>
    rw [List.cons_append, List.takeWhile_cons_of_pos (h c (by simp)),
      ih fun x hx => h x (by simp [hx])]
    rfl

theorem dropWhile_append_of_all {α : Type} (p : α → Bool) (a b : List α)
    (h : ∀ x ∈ a, p x = true) : (a ++ b).dropWhile p = b.dropWhile p := by
  induction a with
  | nil => rfl
  | cons c cs ih =>
    rw [List.cons_append, List.dropWhile_cons_of_pos (h c (by simp)),
      ih fun x hx => h x (by simp [hx])]

theorem render_append (sz : Platform) (a b : List Item) :
    render sz (a ++ b) = render sz a ++ render sz b := by
  induction a with
  | nil => rfl
  | cons i is ih =>
    cases i with
    | chr c => simp [render, ih]
    | lx T => simp [render, ih]

theorem unlines_append (a : List (List Char)) (l : List Char) (ls : List (List Char))
    (h : a ≠ []) : unlines (a ++ l :: ls) = unlines a ++ '\n' :: unlines (l :: ls) := by
  induction a with
  | nil => exact absurd rfl h
  | cons x xs ih =>
    cases xs with
    | nil => simp [unlines]
    | cons y ys =>
      have := ih (by simp)
      simp only [List.cons_append] at this ⊢
      simp only [unlines, this]
      simp

theorem dropPrefix?_append_none (needle p r : List Char) (h : dropPrefix? needle p = none)
    (hl : needle.length ≤ p.length) : dropPrefix? needle (p ++ r) = none := by
  induction needle generalizing p with
  | nil => simp [dropPrefix?] at h
  | cons a as ih =>
    cases p with
    | nil => simp at hl
    | cons b bs =>
      rw [List.cons_append, dropPrefix?]
      rw [dropPrefix?] at h
      by_cases hab : a = b
      · rw [if_pos hab] at h ⊢
        exact ih bs h (by simpa using hl)
      · rw [if_neg hab]

theorem requireName_text (sz : Platform) (ln : Line) (hnr : ln.noRequire = true)
    (he : ln.isEntry = true) : requireName (ln.text sz) = none := by
  cases ln with
  | plain s => simp [Line.isEntry] at he
  | entry pre T post =>
    simp only [Line.noRequire, Bool.and_eq_true, Option.isNone_iff_eq_none,
      decide_eq_true_eq] at hnr
    obtain ⟨h1, h2⟩ := hnr
    have hne : pre.dropWhile (· == ' ') ≠ [] := by
      intro e
      rw [e] at h2
      simp at h2
    unfold requireName
    rw [Line.text, dropWhile_append_of_ne_nil _ _ _ hne, dropPrefix?_append_none _ _ _ h1 h2]

/-! ## The entries of the output -/

theorem map_entryLines {α : Type} (em : Emitter) (b : Bool) (sz : Platform)
    (f : List Char → α) (g : Line → α)
    (h : ∀ ln ∈ tableLines em, f (ln.text sz) = g ln) :
    (entryLines (render sz (items em b))).map f = (tableLines em).map g := by
  rw [entryLines_output, List.map_map]
  exact List.map_congr_left fun ln hln => h ln hln

theorem keyOf_text (em : Emitter) (sz : Platform) :
    ∀ ln ∈ tableLines em, keyOf (ln.text sz) = ln.key := by
  intro ln hln
  obtain ⟨hok, he⟩ := tableLines_ok em ln hln
  simp only [keyOf, Line.key, keyText_text sz ln hok he]

theorem value_of_type (sz : Platform) (ln : Line) (T : CType) (h : ln.type = some T) :
    ln.value sz = '0' :: 'x' :: lx (sz T) := by
  cases ln with
  | plain s => simp [Line.type] at h
  | entry pre U post =>
    simp only [Line.type, Option.some.injEq] at h
    subst h
    rfl

theorem entry_denotes (em : Emitter) (b : Bool) (sz : Platform) (l : List Char)
    (hl : l ∈ entryLines (render sz (items em b))) :
    ∃ T, denote (keyOf l) = some T ∧ valueText l = '0' :: 'x' :: lx (sz T) := by
  rw [entryLines_output] at hl
  obtain ⟨ln, hln, rfl⟩ := List.mem_map.1 hl
  obtain ⟨hok, he⟩ := tableLines_ok em ln hln
  obtain ⟨hd, hs⟩ := tableLines_denote em ln hln
  obtain ⟨T, hT⟩ := Option.isSome_iff_exists.1 hs
  refine ⟨T, ?_, ?_⟩
  · rw [keyOf_text em sz ln hln, hd, hT]
  · rw [valueText_text sz ln hok he, value_of_type sz ln T hT]

theorem readLiteral_lx (n : Nat) (h : n < 2 ^ 64) :
    readLiteral ('0' :: 'x' :: lx n) = some n := by
  rw [readLiteral, readHex_lx, Nat.mod_eq_of_lt h]

/-! ## The scaffolding of the output -/

theorem requireName_table (em : Emitter) (sz : Platform) :
    ∀ l ∈ (tableLines em).map (Line.text sz), requireName l = none := by
  intro l hl
  obtain ⟨ln, hln, rfl⟩ := List.mem_map.1 hl
  exact requireName_text sz ln (tableLines_noRequire em ln hln) (tableLines_ok em ln hln).2

theorem companionRequires_output (em : Emitter) (b : Bool) (sz : Platform) :
    companionRequires (render sz (items em b)) =
      (headLines em b).filterMap requireName ++ footLines.filterMap requireName := by
  unfold companionRequires
  rw [lines_output, List.filterMap_append, List.filterMap_append]
  have h : ((tableLines em).map (Line.text sz)).filterMap requireName = [] := by
    rw [List.filterMap_eq_nil_iff]
    exact requireName_table em sz
  rw [h, List.append_nil]

theorem preRequireLines_output (em : Emitter) (b : Bool) (sz : Platform) :
    preRequireLines (render sz (items em b)) =
      ((headLines em b).takeWhile fun l => (requireName l).isNone).map trim := by
  unfold preRequireLines
  rw [lines_output, List.append_assoc,
    takeWhile_append_of_exists _ _ _ (headLines_has_require em b)]

theorem hasRequire_output (em : Emitter) (b : Bool) (sz : Platform) :
    hasRequire (render sz (items em b)) = true := by
  unfold hasRequire
  rw [lines_output, List.any_append, List.any_append]
  obtain ⟨x, hx, hr⟩ := headLines_has_require em b
  have : (headLines em b).any (fun l => (requireName l).isSome) = true := by
    rw [List.any_eq_true]
    refine ⟨x, hx, ?_⟩
    cases hq : requireName x with
    | none => simp [hq] at hr
    | some r => rfl
  rw [this]
  rfl

theorem setupBlock_output (em : Emitter) (b : Bool) (sz : Platform) :
    setupBlock (render sz (items em b)) =
      (((headLines em b).dropWhile fun l => !"\x7b".toList.isSuffixOf l).takeWhile
        fun l => l != "\x7d".toList).map trim := by
  unfold setupBlock
  rw [lines_output, List.append_assoc,
    dropWhile_append_of_exists _ _ _ (headLines_has_open em b),
    takeWhile_append_of_exists _ _ _ (headLines_has_close em b)]

theorem mem_lines_output (em : Emitter) (b : Bool) (sz : Platform) (needle : List Char)
    (hn : isEntryLine needle = false) :
    needle ∈ lines (render sz (items em b)) ↔ needle ∈ headLines em b ∨ needle ∈ footLines := by
  rw [lines_output, List.mem_append, List.mem_append]
  constructor
  · rintro ((h | h) | h)
    · exact Or.inl h
    · exfalso
      obtain ⟨ln, hln, rfl⟩ := List.mem_map.1 h
      obtain ⟨hok, he⟩ := tableLines_ok em ln hln
      rw [isEntryLine_text sz ln hok, he] at hn
      exact absurd hn (by simp)
    · exact Or.inr h
  · rintro (h | h)
    · exact Or.inl (Or.inl h)
    · exact Or.inr h

theorem dropWhile_lines_output (em : Emitter) (b : Bool) (sz : Platform) :
    (lines (render sz (items em b))).dropWhile (fun l => !isEntryLine l) =
      (tableLines em).map (Line.text sz) ++ footLines := by
  rw [lines_output, List.append_assoc, dropWhile_append_of_all _ _ _
    (fun x hx => by simp [headLines_plain em b x hx])]
  cases ht : tableLines em with
  | nil => exact absurd ht (tableLines_ne_nil em)
  | cons ln lns =>
    have hmem : ln ∈ tableLines em := by simp [ht]
    obtain ⟨hok, he⟩ := tableLines_ok em ln hmem
    rw [List.map_cons, List.cons_append, List.dropWhile_cons_of_neg]
    rw [isEntryLine_text sz ln hok, he]
    simp

theorem takeWhile_lines_output (em : Emitter) (b : Bool) (sz : Platform) :
    (lines (render sz (items em b))).takeWhile (fun l => !isEntryLine l) = headLines em b := by
  rw [lines_output, List.append_assoc, takeWhile_append_of_all _ _ _
    (fun x hx => by simp [headLines_plain em b x hx])]
  cases ht : tableLines em with
  | nil => exact absurd ht (tableLines_ne_nil em)
  | cons ln lns =>
    have hmem : ln ∈ tableLines em := by simp [ht]
    obtain ⟨hok, he⟩ := tableLines_ok em ln hmem
    rw [List.map_cons, List.cons_append, List.takeWhile_cons_of_neg, List.append_nil]
    rw [isEntryLine_text sz ln hok, he]
    simp

theorem headItems_prefix (em : Emitter) (b : Bool) (sz : Platform) :
    render sz (headItems em) <+: render sz (items em b) := by
  refine ⟨render sz ((items em b).drop (headItems em).length), ?_⟩
  have h : headItems em ++ (items em b).drop (headItems em).length = items em b := by
    have := List.take_append_drop (headItems em).length (items em b)
    rw [take_items em b] at this
    exact this
  rw [← render_append, h]

/-! ## The `%sizeof` table -/

/-- C1: for each generator, each state of `DEBUG` and each platform, the keys of the entry
lines of the output (the text before `=>` without padding and quotes) are pairwise distinct. -/
theorem keys_pairwise_distinct (em : Emitter) (DEBUG : DebugMacro) (sz : Platform) :
    ∃ out, stdout em DEBUG sz = some out ∧ ((entryLines out).map keyOf).Nodup := by
  refine ⟨_, stdout_eq em DEBUG sz, ?_⟩
  rw [map_entryLines em _ sz keyOf Line.key (keyOf_text em sz)]
  exact (table_facts em).2.2.1

/-- C2: on every platform, the key of every entry line names a C type, and the value of the
line is `0x` and the `%lx` conversion of the size of that type, hence reads back as that size
when the size fits 64 bits; two entry lines whose keys name the same type carry the same
value. -/
theorem value_is_size_of_named_type (em : Emitter) (DEBUG : DebugMacro) (sz : Platform) :
    ∃ out, stdout em DEBUG sz = some out ∧
      (∀ l ∈ entryLines out, ∃ T, denote (keyOf l) = some T ∧
        valueText l = '0' :: 'x' :: lx (sz T) ∧
        (sz T < 2 ^ 64 → readLiteral (valueText l) = some (sz T))) ∧
      (∀ l₁ ∈ entryLines out, ∀ l₂ ∈ entryLines out,
        denote (keyOf l₁) = denote (keyOf l₂) → valueText l₁ = valueText l₂) := by
  refine ⟨_, stdout_eq em DEBUG sz, ?_, ?_⟩
  · intro l hl
    obtain ⟨T, hT, hv⟩ := entry_denotes em _ sz l hl
    exact ⟨T, hT, hv, fun hb => by rw [hv, readLiteral_lx _ hb]⟩
  · intro l₁ h₁ l₂ h₂ hd
    obtain ⟨T₁, hT₁, hv₁⟩ := entry_denotes em _ sz l₁ h₁
    obtain ⟨T₂, hT₂, hv₂⟩ := entry_denotes em _ sz l₂ h₂
    rw [hT₁, hT₂, Option.some.injEq] at hd
    rw [hv₁, hv₂, hd]

/-- C2 at a concrete input: the backend output on LP64 has the entry line of
`long unsigned int`; its key names `unsigned long`, whose size 8 fits 64 bits, and its value
reads back as 8. -/
theorem value_is_size_of_named_type_witness :
    ∃ out, stdout .backend none lp64 = some out ∧
      ∃ l ∈ entryLines out, keyOf l = "long unsigned int".toList ∧
        denote (keyOf l) = some .ulong ∧ lp64 .ulong < 2 ^ 64 ∧
        readLiteral (valueText l) = some 8 := by
  obtain ⟨out, ho, h, -⟩ := value_is_size_of_named_type .backend none lp64
  obtain ⟨hl, hk, hd, -, -, -⟩ := sample_lines
  have hs : stdout .backend none lp64 = some (render lp64 (items .backend false)) :=
    stdout_eq .backend none lp64
  have hout : out = render lp64 (items .backend false) := Option.some.inj (ho.symm.trans hs)
  rw [← hout] at hl
  obtain ⟨T, hT, -, hr⟩ := h _ hl
  rw [hk, hd] at hT
  have hTT : T = .ulong := (Option.some.inj hT).symm
  rw [hTT] at hr
  have hb : lp64 .ulong < 2 ^ 64 := by norm_num [lp64]
  exact ⟨out, ho, _, hl, hk, by rw [hk]; exact hd, hb, hr hb⟩

/-- C5: on every entry line, when the size `n` of the type the key names is below `2 ^ 64`,
the value is `0x` followed by digits among `0-9a-f`, at least one, with no leading zero
unless `n = 0` where it is the single digit `0`, and the digits read in base 16 give `n`. -/
theorem value_is_lowercase_hex_literal (em : Emitter) (DEBUG : DebugMacro) (sz : Platform) :
    ∃ out, stdout em DEBUG sz = some out ∧
      ∀ l ∈ entryLines out, ∃ T, denote (keyOf l) = some T ∧
        ∀ n, sz T = n → n < 2 ^ 64 →
          ∃ ds, valueText l = '0' :: 'x' :: ds ∧ ds ≠ [] ∧ (∀ c ∈ ds, c ∈ hexDigits) ∧
            (n = 0 → ds = ['0']) ∧ (n ≠ 0 → ds.head? ≠ some '0') ∧ readHex ds = some n := by
  refine ⟨_, stdout_eq em DEBUG sz, ?_⟩
  intro l hl
  obtain ⟨T, hT, hv⟩ := entry_denotes em _ sz l hl
  refine ⟨T, hT, ?_⟩
  intro n hn hb
  have hmod : n % 2 ^ 64 = n := Nat.mod_eq_of_lt hb
  subst hn
  refine ⟨lx (sz T), hv, lx_ne_nil _, lx_mem_hexDigits _, ?_, ?_, ?_⟩
  · intro h0
    exact lx_zero_of _ (by rw [hmod, h0])
  · intro h0
    exact lx_head_ne_zero _ (by rw [hmod]; exact h0)
  · rw [readHex_lx, hmod]

/-- C5 at a concrete input: on LP64 the engine prints the size 16 of `long double` as the
literal `0x10`, whose digits read back as 16. -/
theorem value_is_lowercase_hex_literal_witness :
    ∃ out, stdout .engine none lp64 = some out ∧
      ∃ l ∈ entryLines out, denote (keyOf l) = some .ldouble ∧ lp64 .ldouble = 16 ∧
        16 < 2 ^ 64 ∧ valueText l = "0x10".toList ∧ readHex "10".toList = some 16 := by
  obtain ⟨out, ho, h⟩ := value_is_lowercase_hex_literal .engine none lp64
  obtain ⟨-, -, -, hl, hk, hv⟩ := sample_lines
  have hs : stdout .engine none lp64 = some (render lp64 (items .engine false)) :=
    stdout_eq .engine none lp64
  have hout : out = render lp64 (items .engine false) := Option.some.inj (ho.symm.trans hs)
  rw [← hout] at hl
  obtain ⟨T, hT, hn⟩ := h _ hl
  rw [hk] at hT
  have hTT : T = .ldouble := (Option.some.inj hT).symm
  rw [hTT] at hn
  have hb : 16 < 2 ^ 64 := by norm_num
  obtain ⟨ds, hds, -, -, -, -, hread⟩ := hn 16 rfl hb
  rw [hv] at hds
  have hds2 : ds = "10".toList := by
    have h1 := List.cons.inj hds
    have h2 := List.cons.inj h1.2
    exact h2.2.symm
  rw [hds2] at hread
  exact ⟨out, ho, _, hl, hk, rfl, hb, hv, hread⟩

/-- C6: under the LP64 sizes the table of each generator has the entries `char => 0x1`,
`int => 0x4`, `long => 0x8`, `size_t => 0x8`, `double => 0x8` and `'long double' => 0x10`,
key and value as written. -/
theorem lp64_entries (em : Emitter) (DEBUG : DebugMacro) :
    ∃ out, stdout em DEBUG lp64 = some out ∧
      ∀ kv ∈ [("char".toList, "0x1".toList), ("int".toList, "0x4".toList),
          ("long".toList, "0x8".toList), ("size_t".toList, "0x8".toList),
          ("double".toList, "0x8".toList), ("'long double'".toList, "0x10".toList)],
        kv ∈ (entryLines out).map fun l => (keyText l, valueText l) := by
  refine ⟨_, stdout_eq em DEBUG lp64, ?_⟩
  rw [map_entryLines em _ lp64 (fun l => (keyText l, valueText l))
    (fun ln => (ln.keyText, ln.value lp64))
    (fun ln hln => by
      obtain ⟨hok, he⟩ := tableLines_ok em ln hln
      simp only [keyText_text lp64 ln hok he, valueText_text lp64 ln hok he])]
  exact (table_facts em).2.2.2.2.2

set_option maxRecDepth 1000000 in
/-- C3 as stated fails: in the output of the engine generator built without `DEBUG` on LP64,
the second to last entry line is the one of `long double` and it ends with a separator. -/
theorem long_double_entry_has_separator :
    ∃ out, stdout .engine none lp64 = some out ∧
      ∃ l, (entryLines out)[(entryLines out).length - 2]? = some l ∧
        keyOf l = "long double".toList ∧ hasSeparator l = true := by
  refine ⟨_, stdout_eq .engine none lp64, "    'long double'            => 0x10,".toList, ?_⟩
  decide!

/-- C3 amended: in the output of each generator only the last entry line, the one of
`size_t`, has no separator; every entry line before it has one, the line of `long double`
that stands right before it included. -/
theorem only_last_entry_lacks_separator (em : Emitter) (DEBUG : DebugMacro) (sz : Platform) :
    ∃ out, stdout em DEBUG sz = some out ∧
      (entryLines out).map hasSeparator =
        List.replicate ((entryLines out).length - 1) true ++ [false] ∧
      ((entryLines out).map keyOf).drop ((entryLines out).length - 2) =
        ["long double".toList, "size_t".toList] := by
  refine ⟨_, stdout_eq em DEBUG sz, ?_⟩
  have hlen : (entryLines (render sz (items em (em.debugOn DEBUG)))).length =
      (tableLines em).length := by
    rw [entryLines_output, List.length_map]
  rw [hlen, map_entryLines em _ sz keyOf Line.key (keyOf_text em sz),
    map_entryLines em _ sz hasSeparator Line.sep (fun ln hln =>
      hasSeparator_text sz ln (tableLines_ok em ln hln).1 (tableLines_ok em ln hln).2)]
  exact ⟨(table_facts em).2.2.2.1, (table_facts em).2.2.2.2.1⟩

/-- C8: the engine table has no key of the `long long` family; the backend table has all
eleven keys of `backendOnlyKeys`; on every platform the backend entry lines without those of
the eleven keys are the engine entry lines, line for line; the tables have 35 and 24
entries. -/
theorem backend_table_extends_engine_table (D₁ D₂ : DebugMacro) (sz : Platform) :
    ∃ outE outB, stdout .engine D₁ sz = some outE ∧ stdout .backend D₂ sz = some outB ∧
      ((entryLines outE).map keyOf).filter isLongLongKey = [] ∧
      (∀ k ∈ backendOnlyKeys, k ∈ (entryLines outB).map keyOf) ∧
      (entryLines outB).filter (fun l => !backendOnlyKeys.contains (keyOf l)) =
        entryLines outE ∧
      (entryLines outB).length = 35 ∧ (entryLines outE).length = 24 := by
  obtain ⟨r1, r2, r3, r4, r5⟩ := tables_related
  refine ⟨_, _, stdout_eq .engine D₁ sz, stdout_eq .backend D₂ sz, ?_, ?_, ?_, ?_, ?_⟩
  · rw [map_entryLines .engine _ sz keyOf Line.key (keyOf_text .engine sz)]
    exact r1
  · rw [map_entryLines .backend _ sz keyOf Line.key (keyOf_text .backend sz)]
    exact r2
  · rw [entryLines_output, entryLines_output, List.filter_map]
    have hf : (tableLines .backend).filter
        ((fun l => !backendOnlyKeys.contains (keyOf l)) ∘ Line.text sz) =
        (tableLines .backend).filter fun ln => !backendOnlyKeys.contains ln.key := by
      apply List.filter_congr
      intro ln hln
      simp only [Function.comp, keyOf_text .backend sz ln hln]
    rw [hf, r3]
  · rw [entryLines_output, List.length_map]
    exact r4
  · rw [entryLines_output, List.length_map]
    exact r5

/-! ## The scaffolding around the table -/

/-- C4: for each generator and platform, two builds that differ in `DEBUG` print the same
entry lines and the same lines from the first entry line to the end; the text printed
before the `DEBUG` region starts both outputs; the lines `package iMSCP::H2ph::HASH;`,
`sub FETCH` and the `tie` of `%sizeof` are lines of the output exactly when the `DEBUG`
region is compiled in. -/
theorem debug_changes_only_scaffolding (em : Emitter) (sz : Platform) (D₁ D₂ : DebugMacro) :
    ∃ o₁ o₂, stdout em D₁ sz = some o₁ ∧ stdout em D₂ sz = some o₂ ∧
      entryLines o₁ = entryLines o₂ ∧
      (lines o₁).dropWhile (fun l => !isEntryLine l) =
        (lines o₂).dropWhile (fun l => !isEntryLine l) ∧
      (∃ pre, (compile em.beforeDebug).map (render sz) = some pre ∧ pre <+: o₁ ∧ pre <+: o₂) ∧
      ("    package iMSCP::H2ph::HASH;".toList ∈ lines o₁ ↔ em.debugOn D₁ = true) ∧
      ("    sub FETCH \x7b".toList ∈ lines o₁ ↔ em.debugOn D₁ = true) ∧
      ("tie %sizeof, 'iMSCP::H2ph::HASH';".toList ∈ lines o₁ ∨
        "tie our %sizeof, 'iMSCP::H2ph::HASH';".toList ∈ lines o₁ ↔ em.debugOn D₁ = true) := by
  obtain ⟨w1, w2, w3, -, -⟩ := frame_facts em (em.debugOn D₁)
  refine ⟨_, _, stdout_eq em D₁ sz, stdout_eq em D₂ sz, ?_, ?_, ?_, ?_, ?_, ?_⟩
  · rw [entryLines_output, entryLines_output]
  · rw [dropWhile_lines_output, dropWhile_lines_output]
  · exact ⟨render sz (headItems em), by rw [compile_beforeDebug]; rfl,
      headItems_prefix em _ sz, headItems_prefix em _ sz⟩
  · rw [mem_lines_output em _ sz _ (by decide)]
    exact w1
  · rw [mem_lines_output em _ sz _ (by decide)]
    exact w2
  · rw [mem_lines_output em _ sz _ (by decide), mem_lines_output em _ sz _ (by decide)]
    exact w3

set_option maxRecDepth 1000000 in
/-- C7 as stated fails: the output of the backend generator built without `DEBUG` on LP64 has
companion `require` lines, but no line before the first of them pushes a directory onto
`@INC`, none makes `@INC` or `%INC` local, and none mentions `INC` at all. -/
theorem backend_setup_leaves_inc_alone :
    ∃ out, stdout .backend none lp64 = some out ∧ hasRequire out = true ∧
      addsIncDir (preRequireLines out) = false ∧ localisesInc (preRequireLines out) = false ∧
      (preRequireLines out).all (fun l => !occursIn "INC".toList l) = true := by
  refine ⟨_, stdout_eq .backend none lp64, ?_⟩
  decide!

/-- C7 amended: in each build and on each platform both generators switch the warning class
`portable` off before their first companion `require` line; the engine generator also makes
`%INC` and `@INC` local and then pushes the directory `inc` relative to the module's own file
onto `@INC` before that line; the setup block of the backend generator is the opening brace,
one comment, `no warnings 'portable';` and its three `require` lines, nothing else. -/
theorem setup_block_of_each_generator (em : Emitter) (DEBUG : DebugMacro) (sz : Platform) :
    ∃ out, stdout em DEBUG sz = some out ∧ hasRequire out = true ∧
      disablesPortable (preRequireLines out) = true ∧
      match em with
      | .engine =>
        addsIncDir (preRequireLines out) = true ∧ localisesInc (preRequireLines out) = true
      | .backend =>
        setupBlock out =
          [ "\x7b".toList, "# Loads the required perl header files.".toList,
            "no warnings 'portable';".toList, "require 'syscall.ph';".toList,
            "require 'linux/fs.ph';".toList, "require 'sys/mount.ph';".toList ] := by
  obtain ⟨-, -, -, s1, s2, -, -⟩ := setup_facts em (em.debugOn DEBUG)
  refine ⟨_, stdout_eq em DEBUG sz, hasRequire_output em _ sz, ?_, ?_⟩
  · rw [preRequireLines_output]
    exact s1
  · cases em with
    | engine =>
      simp only [] at s2 ⊢
      rw [preRequireLines_output]
      exact s2
    | backend =>
      simp only [] at s2 ⊢
      rw [setupBlock_output]
      exact s2

/-- C9: in each build and on each platform the companion modules the `require` lines of the
output name are, in order, `sys/syscall.ph` and `linux/fs.ph` for the engine generator and
`syscall.ph`, `linux/fs.ph` and `sys/mount.ph` for the backend generator; they are the
`require` lines of the setup block, and the output has no other such line. -/
theorem companion_modules_fixed (em : Emitter) (DEBUG : DebugMacro) (sz : Platform) :
    ∃ out, stdout em DEBUG sz = some out ∧
      companionRequires out =
        (match em with
        | .engine => ["sys/syscall.ph".toList, "linux/fs.ph".toList]
        | .backend => ["syscall.ph".toList, "linux/fs.ph".toList, "sys/mount.ph".toList]) ∧
      (setupBlock out).filterMap requireName = companionRequires out := by
  obtain ⟨-, -, -, -, -, r1, r2⟩ := setup_facts em (em.debugOn DEBUG)
  refine ⟨_, stdout_eq em DEBUG sz, ?_, ?_⟩
  · rw [companionRequires_output]
    exact r1
  · rw [companionRequires_output, setupBlock_output]
    exact r2

/-- C10: in each build and on each platform the output starts with the license header, an
empty line and the line `package iMSCP::H2ph;`; a line before the first entry line holds
`our %sizeof`; the last entry line is followed by `);`, an empty line, `1;` and `__END__`,
each on a line of its own, and the output ends with the newline after `__END__`. -/
theorem module_frame (em : Emitter) (DEBUG : DebugMacro) (sz : Platform) :
    ∃ out, stdout em DEBUG sz = some out ∧
      licenseHeader ++ [[], "package iMSCP::H2ph;".toList] <+: lines out ∧
      (∃ l ∈ (lines out).takeWhile (fun l => !isEntryLine l),
        occursIn "our %sizeof".toList l = true) ∧
      (∃ body l, isEntryLine l = true ∧
        lines out = body ++ l :: [");".toList, [], "1;".toList, "__END__".toList, []]) ∧
      "\n);\n\n1;\n__END__\n".toList <:+ out := by
  obtain ⟨-, -, -, m1, m2⟩ := frame_facts em (em.debugOn DEBUG)
  refine ⟨_, stdout_eq em DEBUG sz, ?_, ?_, ?_⟩
  · rw [lines_output, List.append_assoc, ← m1]
    exact (List.take_prefix _ _).trans (List.prefix_append _ _)
  · rw [takeWhile_lines_output]
    exact m2
  · have hsplit : ∃ body l, isEntryLine l = true ∧
        lines (render sz (items em (em.debugOn DEBUG))) = body ++ l :: footLines := by
      rw [lines_output]
      have hne := tableLines_ne_nil em
      have hlast := List.dropLast_append_getLast hne
      have hmem : (tableLines em).getLast hne ∈ tableLines em := List.getLast_mem hne
      obtain ⟨hok, he⟩ := tableLines_ok em _ hmem
      refine ⟨headLines em (em.debugOn DEBUG) ++ ((tableLines em).dropLast).map (Line.text sz),
        ((tableLines em).getLast hne).text sz, ?_, ?_⟩
      · rw [isEntryLine_text sz _ hok, he]
      · conv_lhs => rw [← hlast]
        simp
    obtain ⟨body, l, hl, hlines⟩ := hsplit
    refine ⟨⟨body, l, hl, hlines⟩, ?_⟩
    have hout := unlines_splitChar (render sz (items em (em.debugOn DEBUG)))
    unfold lines at hlines
    rw [hlines] at hout
    have hcat : body ++ l :: footLines = (body ++ [l]) ++ ");".toList :: footLines.tail := by
      simp [footLines]
    rw [hcat, unlines_append _ _ _ (by simp)] at hout
    rw [← hout]
    exact ⟨unlines (body ++ [l]), rfl⟩

end H2ph
